import Mathlib

/-!
Verification of the register-bitfield layer instantiated by the CTR_EL0
declaration in `src/registers/ctr_el0.rs`.

The source file declares the bit layout of the `CTR_EL0` register with the
`register_bitfields!` macro over `u64` and wires the register to the generic
`Readable`/`Writeable` accessors.  The field table (offsets, widths, and the
enumerated legal values of `L1Ip`) is embedded here directly from that
declaration.  The generic field mechanism (`extract`, `insert`, `modify`,
`matches_all`) lives in the external bitfield library, outside the sources of
this repository, so it is modelled from the specification: fields are pure
shift-and-mask operations over a 64-bit unsigned value, the written value is
masked to the field width (the silent-masking behavior the specification's
design notes document the source as relying on), and decoding against an
enumerated legal-value set surfaces unmatched encodings as a distinct
reserved-encoding marker.

Machine integers are embedded as `Nat` with explicit `% 2 ^ 64` truncation
where a `u64` computation could overflow.
-/

namespace RegisterBitfield

/-- The register width: the source declares `register_bitfields! {u64, ...}`,
so all raw values are 64-bit. -/
def registerWidth : Nat := 64

/-- The all-ones 64-bit value, used to embed the `u64` bitwise complement
`!m` as `allOnes ^^^ m`. -/
def allOnes : Nat := 2 ^ registerWidth - 1

/-- Modelled from the spec: a `FieldSpec` names a contiguous bit range of the
register by its bit `offset` and bit `width` (spec section 3).  The optional
legal-value mapping of a field is passed separately to `decodeField`; the
symbolic name is not needed by any operation. -/
structure FieldSpec where
  offset : Nat
  width : Nat
deriving DecidableEq

/-- The field's mask shifted into position, truncated to 64 bits as the
`u64` shift in the source's bitfield library would truncate it. -/
def fieldMask (f : FieldSpec) : Nat :=
  ((2 ^ f.width - 1) <<< f.offset) % 2 ^ registerWidth

/-- The 64-bit complement of the field's shifted mask (`!mask` on `u64`). -/
def notMask (f : FieldSpec) : Nat := allOnes ^^^ fieldMask f

/-- Modelled from the spec: `extract` isolates the field's bits by shifting
right by `offset` and masking to `width` bits (spec section 4.1). -/
def extract (raw : Nat) (f : FieldSpec) : Nat :=
  (raw >>> f.offset) &&& (2 ^ f.width - 1)

/-- The value contribution of a field write: the value masked to the field's
width and shifted into position, truncated to 64 bits. -/
def fieldValueBits (f : FieldSpec) (v : Nat) : Nat :=
  ((v &&& (2 ^ f.width - 1)) <<< f.offset) % 2 ^ registerWidth

/-- Modelled from the spec: `insert` clears the field's bit range in `raw` and
ORs in the value shifted into position (spec section 4.1).  The value is
silently masked to `width` bits: the spec's design notes (section 9) record
that the source relies on the underlying bitfield library's default masking
rather than a checked `OutOfRange` rejection. -/
def insert (raw : Nat) (f : FieldSpec) (v : Nat) : Nat :=
  (raw &&& notMask f) ||| fieldValueBits f v

/-- Modelled from the spec: the decoded result of extracting a field that has
an enumerated legal-value set — either a matched symbolic value or a distinct
reserved-encoding marker (spec sections 3 and 4.1). -/
inductive DecodedValue (α : Type) where
  | value (a : α)
  | reservedEncoding
deriving DecidableEq

/-- Modelled from the spec: when a legal-value mapping is present, `extract`
matches the isolated integer against the mapping; no match yields the
`reservedEncoding` marker rather than a decoding failure (spec section 4.1). -/
def decodeField {α : Type} (legal : List (α × Nat)) (f : FieldSpec) (raw : Nat) :
    DecodedValue α :=
  match legal.find? (fun p => p.2 == extract raw f) with
  | some p => DecodedValue.value p.1
  | none => DecodedValue.reservedEncoding

/-- Modelled from the spec: the pure overlay step of `modify` — starting from
the raw value just read, apply `insert` for each `(field, value)` pair in the
given order; the result is the value written back (spec section 4.2). -/
def modifyValue (raw : Nat) (writes : List (FieldSpec × Nat)) : Nat :=
  writes.foldl (fun acc w => insert acc w.1 w.2) raw

/-- Modelled from the spec: `matches_all` reads once, then checks that every
listed field's decoded symbolic value equals the expected one; a
reserved/unmatched encoding for any listed field yields `false` (spec
section 4.2).  Each check carries the field's legal-value mapping, the field,
and the expected symbolic value. -/
def matchesAll {α : Type} [BEq α] (raw : Nat)
    (checks : List (List (α × Nat) × FieldSpec × α)) : Bool :=
  checks.all fun c =>
    match decodeField c.1 c.2.1 raw with
    | DecodedValue.value a => a == c.2.2
    | DecodedValue.reservedEncoding => false

/-! Bit-level characterizations of the masks and operations. -/

theorem testBit_fieldMask (f : FieldSpec) (j : Nat) :
    (fieldMask f).testBit j =
      (decide (j < 64) && (decide (f.offset ≤ j) && decide (j - f.offset < f.width))) := by
  simp only [fieldMask, registerWidth, Nat.testBit_mod_two_pow, Nat.testBit_shiftLeft,
    Nat.testBit_two_pow_sub_one]

theorem testBit_notMask (f : FieldSpec) (j : Nat) :
    (notMask f).testBit j =
      (decide (j < 64) && !(decide (f.offset ≤ j) && decide (j - f.offset < f.width))) := by
  simp only [notMask, allOnes, registerWidth, Nat.testBit_xor, Nat.testBit_two_pow_sub_one,
    testBit_fieldMask]
  cases decide (j < 64) <;> cases (decide (f.offset ≤ j) && decide (j - f.offset < f.width)) <;>
    rfl

theorem testBit_fieldValueBits (f : FieldSpec) (v j : Nat) :
    (fieldValueBits f v).testBit j =
      (decide (j < 64) && (decide (f.offset ≤ j) &&
        (v.testBit (j - f.offset) && decide (j - f.offset < f.width)))) := by
  simp only [fieldValueBits, registerWidth, Nat.testBit_mod_two_pow, Nat.testBit_shiftLeft,
    Nat.testBit_and, Nat.testBit_two_pow_sub_one]

theorem testBit_insert (raw : Nat) (f : FieldSpec) (v : Nat) (j : Nat) :
    (insert raw f v).testBit j =
      if j < 64 then
        (if f.offset ≤ j ∧ j - f.offset < f.width then v.testBit (j - f.offset)
         else raw.testBit j)
      else false := by
  simp only [insert, Nat.testBit_or, Nat.testBit_and, testBit_notMask, testBit_fieldValueBits]
  by_cases h64 : j < 64
  · by_cases hin : f.offset ≤ j ∧ j - f.offset < f.width
    · simp [h64, hin.1, hin.2]
    · rcases Decidable.not_and_iff_or_not.mp hin with h | h <;>
        simp [h64, h]
  · simp [h64]

theorem testBit_extract (raw : Nat) (f : FieldSpec) (i : Nat) :
    (extract raw f).testBit i = (raw.testBit (f.offset + i) && decide (i < f.width)) := by
  simp only [extract, Nat.testBit_and, Nat.testBit_shiftRight, Nat.testBit_two_pow_sub_one]

theorem testBit_of_lt_two_pow {v w i : Nat} (hv : v < 2 ^ w) (hw : w ≤ i) :
    v.testBit i = false :=
  Nat.testBit_lt_two_pow (Nat.lt_of_lt_of_le hv (Nat.pow_le_pow_right (by decide) hw))

/-! The CTR_EL0 field table, embedded from the `register_bitfields!`
declaration in `src/registers/ctr_el0.rs`. -/

namespace CTR_EL0

/-- `TminLine OFFSET(32) NUMBITS(6)` from the source. -/
def TminLine : FieldSpec := ⟨32, 6⟩

/-- `DIC OFFSET(29) NUMBITS(1)` from the source. -/
def DIC : FieldSpec := ⟨29, 1⟩

/-- `IDC OFFSET(28) NUMBITS(1)` from the source. -/
def IDC : FieldSpec := ⟨28, 1⟩

/-- `CWG OFFSET(24) NUMBITS(4)` from the source. -/
def CWG : FieldSpec := ⟨24, 4⟩

/-- `ERG OFFSET(20) NUMBITS(4)` from the source. -/
def ERG : FieldSpec := ⟨20, 4⟩

/-- `DminLine OFFSET(16) NUMBITS(4)` from the source. -/
def DminLine : FieldSpec := ⟨16, 4⟩

/-- `L1Ip OFFSET(14) NUMBITS(2)` from the source. -/
def L1Ip : FieldSpec := ⟨14, 2⟩

/-- `IminLine OFFSET(0) NUMBITS(4)` from the source. -/
def IminLine : FieldSpec := ⟨0, 4⟩

/-- The declared fields of CTR_EL0, in source declaration order. -/
def fields : List FieldSpec :=
  [TminLine, DIC, IDC, CWG, ERG, DminLine, L1Ip, IminLine]

/-- The enumerated legal values of the `L1Ip` field, from the source:
`Reserved = 0b00, AIVIVT = 0b01, VIPT = 0b10, PIPT = 0b11`. -/
inductive L1IpValue where
  | Reserved
  | AIVIVT
  | VIPT
  | PIPT
deriving DecidableEq, BEq

/-- The legal-value mapping of `L1Ip` as declared in the source. -/
def l1ipLegal : List (L1IpValue × Nat) :=
  [(L1IpValue.Reserved, 0), (L1IpValue.AIVIVT, 1), (L1IpValue.VIPT, 2), (L1IpValue.PIPT, 3)]

end CTR_EL0

/-- A two-element legal-value set for the spec's reserved-encoding example
`legal_values = \x7bA: 0, B: 1\x7d` on a width-2 field. -/
inductive ABValue where
  | A
  | B
deriving DecidableEq, BEq

/-- The mapping of the spec's reserved-encoding example. -/
def abLegal : List (ABValue × Nat) := [(ABValue.A, 0), (ABValue.B, 1)]

/-- The width-2 field of the spec's reserved-encoding example, placed at
offset 0. -/
def abField : FieldSpec := ⟨0, 2⟩

/-! Shared correctness lemmas about `extract` and `insert`. -/

theorem extract_lt (raw : Nat) (f : FieldSpec) : extract raw f < 2 ^ f.width := by
  have h : extract raw f ≤ 2 ^ f.width - 1 := Nat.and_le_right
  have hpos : 0 < 2 ^ f.width := Nat.two_pow_pos f.width
  omega

theorem extract_insert (raw : Nat) (f : FieldSpec) (v : Nat)
    (hw : f.offset + f.width ≤ registerWidth) (hv : v < 2 ^ f.width) :
    extract (insert raw f v) f = v := by
  apply Nat.eq_of_testBit_eq
  intro i
  rw [testBit_extract, testBit_insert]
  by_cases hiw : i < f.width
  · have h64 : f.offset + i < 64 := by
      simp only [registerWidth] at hw; omega
    have hle : f.offset ≤ f.offset + i := Nat.le_add_right _ _
    have hsub : f.offset + i - f.offset = i := by omega
    simp [h64, hle, hsub, hiw]
  · have hv' : v.testBit i = false := testBit_of_lt_two_pow hv (Nat.le_of_not_lt hiw)
    simp [hiw, hv']

theorem insert_and_notMask (raw : Nat) (f : FieldSpec) (v : Nat) :
    insert raw f v &&& notMask f = raw &&& notMask f := by
  apply Nat.eq_of_testBit_eq
  intro j
  rw [Nat.testBit_and, Nat.testBit_and, testBit_insert, testBit_notMask]
  by_cases h64 : j < 64
  · by_cases hin : f.offset ≤ j ∧ j - f.offset < f.width
    · simp [h64, hin.1, hin.2]
    · simp [h64, hin]
  · simp [h64]

theorem insert_insert_same (raw : Nat) (f : FieldSpec) (v : Nat) :
    insert (insert raw f v) f v = insert raw f v := by
  apply Nat.eq_of_testBit_eq
  intro j
  simp only [testBit_insert]
  by_cases h64 : j < 64
  · by_cases hin : f.offset ≤ j ∧ j - f.offset < f.width
    · simp [h64, hin]
    · simp [h64, hin]
  · simp [h64]

theorem decodeField_of_no_match {α : Type} (legal : List (α × Nat)) (f : FieldSpec)
    (raw : Nat) (h : ∀ p ∈ legal, p.2 ≠ extract raw f) :
    decodeField legal f raw = DecodedValue.reservedEncoding := by
  have hfind : legal.find? (fun p => p.2 == extract raw f) = none := by
    rw [List.find?_eq_none]
    intro p hp
    simpa using h p hp
  simp [decodeField, hfind]

/-! Claim theorems. -/

/-- C1: Round-trip law: for every field with offset + width at most the
register width, every value below 2 ^ width, and every starting raw register
value, extracting the field from the result of inserting that value into the
raw register value returns exactly the inserted value. -/
theorem c1_round_trip_law (f : FieldSpec) (raw v : Nat)
    (hw : f.offset + f.width ≤ registerWidth) (hv : v < 2 ^ f.width) :
    extract (insert raw f v) f = v :=
  extract_insert raw f v hw hv

theorem c1_round_trip_law_witness :
    extract (insert 0x8000 CTR_EL0.L1Ip 3) CTR_EL0.L1Ip = 3 :=
  c1_round_trip_law CTR_EL0.L1Ip 0x8000 3 (by decide) (by decide)

/-- C2: Frame law: for every raw register value, every field, and every value,
insert leaves every bit outside the field's shifted mask unchanged:
`insert raw f v &&& !mask = raw &&& !mask`. -/
theorem c2_frame_law (raw : Nat) (f : FieldSpec) (v : Nat) :
    insert raw f v &&& notMask f = raw &&& notMask f :=
  insert_and_notMask raw f v

/-- C3 counterexample: for the width-2 `L1Ip` field, inserting value
`4 = 2 ^ 2` (one past the maximum representable value) produces exactly the
same register value as inserting 0: the out-of-range value is silently
truncated, and no OutOfRange condition exists anywhere in the insert path. -/
theorem c3_counterexample_silent_truncation :
    insert 0x8000 CTR_EL0.L1Ip 4 = insert 0x8000 CTR_EL0.L1Ip 0 ∧
    extract (insert 0x8000 CTR_EL0.L1Ip 4) CTR_EL0.L1Ip = 0 := by
  decide

/-- C3 (amended): insert silently masks the supplied value to the field's
width — `insert raw f v = insert raw f (v % 2 ^ width)` — so the
one-past-maximum value `2 ^ width` is truncated to 0 rather than rejected
with an OutOfRange condition. -/
theorem c3_insert_masks_value :
    (∀ (raw : Nat) (f : FieldSpec) (v : Nat),
        insert raw f v = insert raw f (v % 2 ^ f.width)) ∧
    ∀ (raw : Nat) (f : FieldSpec), insert raw f (2 ^ f.width) = insert raw f 0 := by
  have key : ∀ (raw : Nat) (f : FieldSpec) (v : Nat),
      insert raw f v = insert raw f (v % 2 ^ f.width) := by
    intro raw f v
    apply Nat.eq_of_testBit_eq
    intro j
    simp only [testBit_insert]
    by_cases h64 : j < 64
    · by_cases hin : f.offset ≤ j ∧ j - f.offset < f.width
      · have hmod : (v % 2 ^ f.width).testBit (j - f.offset) = v.testBit (j - f.offset) := by
          rw [Nat.testBit_mod_two_pow]
          simp [hin.2]
        simp [h64, hin, hmod]
      · simp [h64, hin]
    · simp [h64]
  exact ⟨key, fun raw f => by rw [key raw f (2 ^ f.width), Nat.mod_self]⟩

/-- C4: CTR_EL0 scenario: for the `L1Ip` field at offset 14 with width 2 and
legal values Reserved/AIVIVT/VIPT/PIPT, decoding raw value 0x8000 yields the
symbolic value VIPT, and a modify that sets the field to PIPT (encoding 3) on
that raw value produces exactly 0xC000, with all bits outside the field
unchanged. -/
theorem c4_ctr_el0_scenario :
    decodeField CTR_EL0.l1ipLegal CTR_EL0.L1Ip 0x8000 =
      DecodedValue.value CTR_EL0.L1IpValue.VIPT ∧
    modifyValue 0x8000 [(CTR_EL0.L1Ip, 3)] = 0xC000 ∧
    modifyValue 0x8000 [(CTR_EL0.L1Ip, 3)] &&& notMask CTR_EL0.L1Ip =
      0x8000 &&& notMask CTR_EL0.L1Ip := by
  decide

/-- C5: Reserved-encoding detection: whenever the isolated field bits match no
entry of a field's legal-value mapping, decoding yields the distinct
reservedEncoding marker; in particular, for the width-2 field with legal
values A = 0 and B = 1, field bits 0b10 and 0b11 both decode to
reservedEncoding, never to A or B. -/
theorem c5_reserved_encoding :
    (∀ (α : Type) (legal : List (α × Nat)) (f : FieldSpec) (raw : Nat),
        (∀ p ∈ legal, p.2 ≠ extract raw f) →
        decodeField legal f raw = DecodedValue.reservedEncoding) ∧
    decodeField abLegal abField 2 = DecodedValue.reservedEncoding ∧
    decodeField abLegal abField 3 = DecodedValue.reservedEncoding :=
  ⟨fun _ legal f raw h => decodeField_of_no_match legal f raw h, by decide, by decide⟩

theorem c5_reserved_encoding_witness :
    decodeField abLegal abField 2 = DecodedValue.reservedEncoding :=
  c5_reserved_encoding.1 ABValue abLegal abField 2 (by intro p hp; fin_cases hp <;> decide)

/-- C6: Ordered overlay in modify: modify applies insert for each pair in
sequence order, so the later entry fully determines its own field bits, and
there are two overlapping fields and values for which swapping the order of
the pairs changes the final raw value. -/
theorem c6_ordered_overlay :
    (∀ (raw : Nat) (f1 : FieldSpec) (v1 : Nat) (f2 : FieldSpec) (v2 : Nat),
        f2.offset + f2.width ≤ registerWidth → v2 < 2 ^ f2.width →
        extract (modifyValue raw [(f1, v1), (f2, v2)]) f2 = v2) ∧
    modifyValue 0 [((⟨0, 2⟩ : FieldSpec), 3), ((⟨1, 2⟩ : FieldSpec), 0)] ≠
      modifyValue 0 [((⟨1, 2⟩ : FieldSpec), 0), ((⟨0, 2⟩ : FieldSpec), 3)] := by
  constructor
  · intro raw f1 v1 f2 v2 hw hv
    show extract (insert (insert raw f1 v1) f2 v2) f2 = v2
    exact extract_insert _ f2 v2 hw hv
  · decide

theorem c6_ordered_overlay_witness :
    extract (modifyValue 0 [((⟨0, 2⟩ : FieldSpec), 3), ((⟨1, 2⟩ : FieldSpec), 0)])
      (⟨1, 2⟩ : FieldSpec) = 0 :=
  c6_ordered_overlay.1 0 ⟨0, 2⟩ 3 ⟨1, 2⟩ 0 (by decide) (by decide)

/-- C7: matchesAll totality: matchesAll is a total boolean function of the
raw value read and the listed expectations (it can never raise, being a
plain function into Bool), and whenever any listed field decodes to the
reserved/unmatched encoding, matchesAll returns false. -/
theorem c7_matches_all_reserved {α : Type} [BEq α] (raw : Nat)
    (checks : List (List (α × Nat) × FieldSpec × α))
    (c : List (α × Nat) × FieldSpec × α) (hc : c ∈ checks)
    (hres : decodeField c.1 c.2.1 raw = DecodedValue.reservedEncoding) :
    matchesAll raw checks = false := by
  rw [Bool.eq_false_iff]
  intro hall
  simp only [matchesAll, List.all_eq_true] at hall
  have h := hall c hc
  rw [hres] at h
  simp at h

theorem c7_matches_all_reserved_witness :
    matchesAll 2 [(abLegal, abField, ABValue.A)] = false :=
  c7_matches_all_reserved 2 [(abLegal, abField, ABValue.A)]
    (abLegal, abField, ABValue.A) (List.mem_singleton.mpr rfl) (by decide)

/-- C8: Idempotence of insert: inserting the same value into the same field
twice gives the same result as inserting it once. -/
theorem c8_insert_idempotent (raw : Nat) (f : FieldSpec) (v : Nat) :
    insert (insert raw f v) f v = insert raw f v :=
  insert_insert_same raw f v

/-- C9: Well-formedness of the CTR_EL0 field table: the declared fields are
TminLine at 32/6, DIC at 29/1, IDC at 28/1, CWG at 24/4, ERG at 20/4,
DminLine at 16/4, L1Ip at 14/2 and IminLine at 0/4; every field satisfies
offset + width at most 64, and the bit ranges of any two distinct fields are
pairwise disjoint. -/
theorem c9_ctr_el0_table_wellformed :
    CTR_EL0.fields =
      [⟨32, 6⟩, ⟨29, 1⟩, ⟨28, 1⟩, ⟨24, 4⟩, ⟨20, 4⟩, ⟨16, 4⟩, ⟨14, 2⟩, ⟨0, 4⟩] ∧
    (∀ f ∈ CTR_EL0.fields, f.offset + f.width ≤ registerWidth) ∧
    CTR_EL0.fields.Pairwise
      (fun a b => a.offset + a.width ≤ b.offset ∨ b.offset + b.width ≤ a.offset) :=
  ⟨rfl, by decide, by decide⟩

theorem c9_ctr_el0_table_wellformed_witness :
    CTR_EL0.TminLine.offset + CTR_EL0.TminLine.width ≤ registerWidth :=
  c9_ctr_el0_table_wellformed.2.1 CTR_EL0.TminLine (by decide)

/-- C10: L1Ip decoding is total over its width: for every raw register value,
decoding L1Ip against its declared legal values yields one of the four named
values, never the reservedEncoding marker, and the all-zero encoding decodes
to the named value Reserved. -/
theorem c10_l1ip_decode_total :
    (∀ raw : Nat, ∃ v : CTR_EL0.L1IpValue,
        decodeField CTR_EL0.l1ipLegal CTR_EL0.L1Ip raw = DecodedValue.value v) ∧
    decodeField CTR_EL0.l1ipLegal CTR_EL0.L1Ip 0 =
      DecodedValue.value CTR_EL0.L1IpValue.Reserved := by
  constructor
  · intro raw
    have hlt : extract raw CTR_EL0.L1Ip < 4 := by
      have h := extract_lt raw CTR_EL0.L1Ip
      norm_num [CTR_EL0.L1Ip] at h
      exact h
    obtain h | h | h | h : extract raw CTR_EL0.L1Ip = 0 ∨ extract raw CTR_EL0.L1Ip = 1 ∨
        extract raw CTR_EL0.L1Ip = 2 ∨ extract raw CTR_EL0.L1Ip = 3 := by omega
    · refine ⟨CTR_EL0.L1IpValue.Reserved, ?_⟩
      unfold decodeField
      rw [h]
      decide
    · refine ⟨CTR_EL0.L1IpValue.AIVIVT, ?_⟩
      unfold decodeField
      rw [h]
      decide
    · refine ⟨CTR_EL0.L1IpValue.VIPT, ?_⟩
      unfold decodeField
      rw [h]
      decide
    · refine ⟨CTR_EL0.L1IpValue.PIPT, ?_⟩
      unfold decodeField
      rw [h]
      decide
  · decide

end RegisterBitfield
